import Mathlib

/-!
Verification of the vote-system client and API flow logic.

The definitions below are shallow embeddings of the TypeScript source:
  - item normalization, key building, deduplication and vote merging from
    components/weather-vote/VoteLanding.tsx,
  - the peak-rain computation, can-advance check, weather cache guards and
    post-submission reconciliation from the campaign voting page,
  - the token-resolution endpoint (api/vote/resolve/route.ts) and the strict
    assignment-submit endpoint.
JavaScript numbers are modelled as Int or Rat, nullable/optional fields as
Option, records (string-keyed objects) as functions String to Option.
-/

namespace VoteSystem

/-- View states of the flow controller in VoteLanding.tsx
(type ViewState = 'loading' | 'welcome' | 'voting' | 'summary' | 'error'). -/
inductive ViewState where
  | loading
  | welcome
  | voting
  | summary
  | error
deriving DecidableEq, Repr

/-- The embedded existing_vote payload that may ride along on an item row. -/
structure EmbeddedVote where
  vote_value : Option String
  vote_reason : Option String
  voted_at : Option String
deriving DecidableEq, Repr

/-- WeatherVoteItem from lib/weather-vote (part_000), as normalized by
loadContext in VoteLanding.tsx. -/
structure WeatherVoteItem where
  internal_job_id : Int
  forecast_date : Option String
  lens_id : Option String
  property_name : Option String
  service_name : Option String
  estimator_initials : Option String
  risk_level : Option String
  route_start_time : Option String
  route_end_time : Option String
  max_rain_chance : Option Rat
  max_rain_inches_route : Option Rat
  hourly_weather : Option String
  existing_vote : Option EmbeddedVote
deriving DecidableEq, Repr

/-- WeatherVoteVote from lib/weather-vote (part_000). -/
structure WeatherVoteVote where
  internal_job_id : Int
  forecast_date : Option String
  lens_id : Option String
  vote_value : Option String
  vote_reason : Option String
  voted_at : Option String
deriving DecidableEq, Repr

/-- getItemKey from VoteLanding.tsx: the template string
internal_job_id | forecast_date ?? "" | lens_id ?? "". -/
def getItemKey (item : WeatherVoteItem) : String :=
  toString item.internal_job_id ++ "|" ++ item.forecast_date.getD "" ++ "|" ++
    item.lens_id.getD ""

/-- The composite identity key the spec names for a VoteItem. -/
def itemKeyTriple (item : WeatherVoteItem) : Int × Option String × Option String :=
  (item.internal_job_id, item.forecast_date, item.lens_id)

/-- Items with equal composite keys produce equal string keys. -/
lemma getItemKey_eq_of_triple_eq (a b : WeatherVoteItem)
    (h : itemKeyTriple a = itemKeyTriple b) : getItemKey a = getItemKey b := by
  unfold itemKeyTriple at h
  obtain ⟨h1, h2, h3⟩ : a.internal_job_id = b.internal_job_id ∧
      a.forecast_date = b.forecast_date ∧ a.lens_id = b.lens_id := by
    simpa [Prod.ext_iff] using h
  unfold getItemKey
  rw [h1, h2, h3]

/-- Recursive core of dedupeItems: the seen-set of string keys plus the
surviving list, processed front to back (the for-loop in dedupeItems). -/
def dedupeAux (seen : List String) : List WeatherVoteItem → List WeatherVoteItem
  | [] => []
  | i :: rest =>
      if getItemKey i ∈ seen then dedupeAux seen rest
      else i :: dedupeAux (getItemKey i :: seen) rest

/-- dedupeItems from VoteLanding.tsx: skip any item whose string key was
already seen, keep the first occurrence. -/
def dedupeItems (items : List WeatherVoteItem) : List WeatherVoteItem :=
  dedupeAux [] items

/-- Every survivor of dedupeAux has a key outside the initial seen set, and is
preceded in the input only by items with different keys (up to seen keys). -/
lemma dedupeAux_first (seen : List String) (items : List WeatherVoteItem) :
    ∀ x ∈ dedupeAux seen items, getItemKey x ∉ seen ∧
      ∃ l₁ l₂, items = l₁ ++ x :: l₂ ∧ ∀ y ∈ l₁, getItemKey y ≠ getItemKey x := by
  induction items generalizing seen with
  | nil => intro x hx; simp [dedupeAux] at hx
  | cons i rest ih =>
      intro x hx
      by_cases hseen : getItemKey i ∈ seen
      · rw [dedupeAux, if_pos hseen] at hx
        obtain ⟨hnot, l₁, l₂, hsplit, hpref⟩ := ih seen x hx
        refine ⟨hnot, i :: l₁, l₂, by rw [hsplit]; rfl, ?_⟩
        intro y hy
        rcases List.mem_cons.mp hy with hyi | hyl
        · subst hyi
          intro hcontra
          exact hnot (hcontra ▸ hseen)
        · exact hpref y hyl
      · rw [dedupeAux, if_neg hseen] at hx
        rcases List.mem_cons.mp hx with hxi | hxrest
        · subst hxi
          exact ⟨hseen, [], rest, rfl, by simp⟩
        · obtain ⟨hnot, l₁, l₂, hsplit, hpref⟩ := ih (getItemKey i :: seen) x hxrest
          have hne : getItemKey x ≠ getItemKey i := by
            intro hcontra
            exact hnot (by rw [hcontra]; exact List.mem_cons_self _ _)
          refine ⟨fun hmem => hnot (List.mem_cons_of_mem _ hmem),
            i :: l₁, l₂, by rw [hsplit]; rfl, ?_⟩
          intro y hy
          rcases List.mem_cons.mp hy with hyi | hyl
          · subst hyi; exact fun hc => hne hc.symm
          · exact hpref y hyl

/-- Every survivor of dedupeAux has a key outside the initial seen set. -/
lemma dedupeAux_key_not_mem (seen : List String) (items : List WeatherVoteItem) :
    ∀ x ∈ dedupeAux seen items, getItemKey x ∉ seen :=
  fun x hx => (dedupeAux_first seen items x hx).1

/-- The survivors of dedupeAux carry pairwise distinct string keys. -/
lemma dedupeAux_pairwise (seen : List String) (items : List WeatherVoteItem) :
    (dedupeAux seen items).Pairwise (fun a b => getItemKey a ≠ getItemKey b) := by
  induction items generalizing seen with
  | nil => simp [dedupeAux]
  | cons i rest ih =>
      by_cases hseen : getItemKey i ∈ seen
      · rw [dedupeAux, if_pos hseen]; exact ih seen
      · rw [dedupeAux, if_neg hseen]
        refine List.Pairwise.cons ?_ (ih (getItemKey i :: seen))
        intro y hy hcontra
        have := dedupeAux_key_not_mem (getItemKey i :: seen) rest y hy
        exact this (by rw [← hcontra]; exact List.mem_cons_self _ _)

/-- dedupeAux returns a sublist of its input (survivors keep relative order). -/
lemma dedupeAux_sublist (seen : List String) (items : List WeatherVoteItem) :
    List.Sublist (dedupeAux seen items) items := by
  induction items generalizing seen with
  | nil => simp [dedupeAux]
  | cons i rest ih =>
      by_cases hseen : getItemKey i ∈ seen
      · rw [dedupeAux, if_pos hseen]
        exact List.Sublist.cons i (ih seen)
      · rw [dedupeAux, if_neg hseen]
        exact List.Sublist.cons₂ i (ih (getItemKey i :: seen))

/-- The survivors of dedupeItems carry pairwise distinct string keys. -/
lemma dedupeItems_pairwise_key (items : List WeatherVoteItem) :
    (dedupeItems items).Pairwise (fun a b => getItemKey a ≠ getItemKey b) :=
  dedupeAux_pairwise [] items

/-- Claim C4: deduplication by the composite key (internal_job_id,
forecast_date, lens_id) yields a list in which no two entries share a key,
every surviving entry is the first occurrence of its key in the input, and
survivors appear in the same relative order as in the input (a sublist). -/
theorem dedupeItems_spec (items : List WeatherVoteItem) :
    (dedupeItems items).Pairwise (fun a b => itemKeyTriple a ≠ itemKeyTriple b) ∧
    List.Sublist (dedupeItems items) items ∧
    ∀ x ∈ dedupeItems items, ∃ l₁ l₂, items = l₁ ++ x :: l₂ ∧
      ∀ y ∈ l₁, itemKeyTriple y ≠ itemKeyTriple x := by
  refine ⟨?_, dedupeAux_sublist [] items, ?_⟩
  · exact (dedupeItems_pairwise_key items).imp
      (fun h hc => h (getItemKey_eq_of_triple_eq _ _ hc))
  · intro x hx
    obtain ⟨_, l₁, l₂, hsplit, hpref⟩ := dedupeAux_first [] items x hx
    exact ⟨l₁, l₂, hsplit, fun y hy hc =>
      hpref y hy (getItemKey_eq_of_triple_eq _ _ hc)⟩

/-- A default item used to build concrete instances in witnesses. -/
def defaultItem : WeatherVoteItem :=
  { internal_job_id := 0, forecast_date := none, lens_id := none,
    property_name := none, service_name := none, estimator_initials := none,
    risk_level := none, route_start_time := none, route_end_time := none,
    max_rain_chance := none, max_rain_inches_route := none,
    hourly_weather := none, existing_vote := none }

/-- Witness for C4: the dedup guarantees evaluated on a concrete list with one
duplicated key. -/
theorem dedupeItems_spec_witness :
    (dedupeItems [defaultItem, { defaultItem with internal_job_id := 2 },
        defaultItem]).Pairwise
      (fun a b => itemKeyTriple a ≠ itemKeyTriple b) ∧
    List.Sublist
      (dedupeItems [defaultItem, { defaultItem with internal_job_id := 2 },
        defaultItem])
      [defaultItem, { defaultItem with internal_job_id := 2 }, defaultItem] ∧
    ∀ x ∈ dedupeItems [defaultItem, { defaultItem with internal_job_id := 2 },
        defaultItem],
      ∃ l₁ l₂, [defaultItem, { defaultItem with internal_job_id := 2 },
          defaultItem] = l₁ ++ x :: l₂ ∧
        ∀ y ∈ l₁, itemKeyTriple y ≠ itemKeyTriple x :=
  dedupeItems_spec [defaultItem, { defaultItem with internal_job_id := 2 },
    defaultItem]

/-- Key of a WeatherVoteVote row, as built inside mapVotes in
VoteLanding.tsx (same template string as getItemKey). -/
def getVoteKey (v : WeatherVoteVote) : String :=
  toString v.internal_job_id ++ "|" ++ v.forecast_date.getD "" ++ "|" ++
    v.lens_id.getD ""

/-- The empty string-keyed record. -/
def emptyVoteMap : String → Option WeatherVoteVote := fun _ => none

/-- Assignment to one key of a string-keyed record (result[key] = vote). -/
def insertVote (m : String → Option WeatherVoteVote) (k : String)
    (v : WeatherVoteVote) : String → Option WeatherVoteVote :=
  fun q => if q = k then some v else m q

/-- mapVotes from VoteLanding.tsx: fold the vote list into a record, later
entries overwriting earlier ones at a colliding key. -/
def mapVotes (votes : List WeatherVoteVote) : String → Option WeatherVoteVote :=
  votes.foldl (fun m v => insertVote m (getVoteKey v) v) emptyVoteMap

/-- The WeatherVoteVote record that loadContext builds from an item's
embedded existing_vote. -/
def embedVote (item : WeatherVoteItem) (ev : EmbeddedVote) : WeatherVoteVote :=
  { internal_job_id := item.internal_job_id,
    forecast_date := item.forecast_date,
    lens_id := item.lens_id,
    vote_value := ev.vote_value,
    vote_reason := ev.vote_reason,
    voted_at := ev.voted_at }

/-- Recursive core of the voteFromItems forEach in loadContext: items without
an embedded vote are skipped, others assign their key in the record. -/
def voteFromItemsAux (m : String → Option WeatherVoteVote) :
    List WeatherVoteItem → String → Option WeatherVoteVote
  | [] => m
  | item :: rest =>
      match item.existing_vote with
      | none => voteFromItemsAux m rest
      | some ev =>
          voteFromItemsAux (insertVote m (getItemKey item) (embedVote item ev)) rest

/-- The voteFromItems record built by loadContext in VoteLanding.tsx. -/
def voteFromItems (items : List WeatherVoteItem) :
    String → Option WeatherVoteVote :=
  voteFromItemsAux emptyVoteMap items

/-- mergedVotes from loadContext: the object spread of voteFromItems then
contextVotes, so the explicit vote list wins at a colliding key. -/
def mergedVotes (contextItems : List WeatherVoteItem)
    (votes : List WeatherVoteVote) : String → Option WeatherVoteVote :=
  fun k =>
    match mapVotes votes k with
    | some v => some v
    | none => voteFromItems contextItems k

/-- If no item of the list carries key k, the fold leaves the record at k
untouched. -/
lemma voteFromItemsAux_not_mem (m : String → Option WeatherVoteVote)
    (items : List WeatherVoteItem) (k : String)
    (hk : ∀ i ∈ items, getItemKey i ≠ k) : voteFromItemsAux m items k = m k := by
  induction items generalizing m with
  | nil => rfl
  | cons item rest ih =>
      have hrest : ∀ i ∈ rest, getItemKey i ≠ k :=
        fun i hi => hk i (List.mem_cons_of_mem _ hi)
      cases hev : item.existing_vote with
      | none => simp only [voteFromItemsAux, hev]; exact ih m hrest
      | some ev =>
          simp only [voteFromItemsAux, hev]
          rw [ih _ hrest]
          unfold insertVote
          rw [if_neg]
          intro hc
          exact hk item (List.mem_cons_self _ _) hc.symm

/-- With pairwise distinct keys, the voteFromItems record at an item's key is
exactly the embedding of that item's existing vote. -/
lemma voteFromItemsAux_lookup (m : String → Option WeatherVoteVote)
    (items : List WeatherVoteItem) (i : WeatherVoteItem) (ev : EmbeddedVote)
    (hmem : i ∈ items) (hev : i.existing_vote = some ev)
    (hdist : items.Pairwise (fun a b => getItemKey a ≠ getItemKey b)) :
    voteFromItemsAux m items (getItemKey i) = some (embedVote i ev) := by
  induction items generalizing m with
  | nil => simp at hmem
  | cons x rest ih =>
      obtain ⟨hhead, htail⟩ := List.pairwise_cons.mp hdist
      rcases List.mem_cons.mp hmem with hix | hirest
      · subst hix
        simp only [voteFromItemsAux, hev]
        rw [voteFromItemsAux_not_mem _ rest (getItemKey i)
          (fun y hy hc => hhead y hy hc.symm)]
        unfold insertVote
        rw [if_pos rfl]
      · cases hxev : x.existing_vote with
        | none => simp only [voteFromItemsAux, hxev]; exact ih _ hirest htail
        | some evx => simp only [voteFromItemsAux, hxev]; exact ih _ hirest htail

/-- Claim C3: in the merged vote map, the explicit vote list wins over an
item's embedded existing_vote at a colliding key; when the vote list holds no
entry for the key, the map binds the key to the embedded vote. -/
theorem mergedVotes_precedence (rawItems : List WeatherVoteItem)
    (votes : List WeatherVoteVote) (i : WeatherVoteItem) (ev : EmbeddedVote)
    (hi : i ∈ dedupeItems rawItems) (hev : i.existing_vote = some ev) :
    (∀ lv, mapVotes votes (getItemKey i) = some lv →
      mergedVotes (dedupeItems rawItems) votes (getItemKey i) = some lv) ∧
    (mapVotes votes (getItemKey i) = none →
      mergedVotes (dedupeItems rawItems) votes (getItemKey i) =
        some (embedVote i ev)) := by
  constructor
  · intro lv hlv
    unfold mergedVotes
    rw [hlv]
  · intro hnone
    unfold mergedVotes
    rw [hnone]
    exact voteFromItemsAux_lookup emptyVoteMap _ i ev hi hev
      (dedupeItems_pairwise_key rawItems)

/-- A default weather-vote row used in witnesses. -/
def defaultVote : WeatherVoteVote :=
  { internal_job_id := 0, forecast_date := none, lens_id := none,
    vote_value := none, vote_reason := none, voted_at := none }

/-- A concrete embedded vote used in the C3 witness. -/
def sampleEmbedded : EmbeddedVote :=
  { vote_value := some "Cancel", vote_reason := none, voted_at := none }

/-- A concrete item carrying an embedded existing vote. -/
def embeddedSampleItem : WeatherVoteItem :=
  { defaultItem with internal_job_id := 7, existing_vote := some sampleEmbedded }

/-- A concrete explicit vote-list row colliding with embeddedSampleItem. -/
def collidingListVote : WeatherVoteVote :=
  { defaultVote with
    internal_job_id := 7
    vote_value := some "Dispatch anyway" }

/-- Witness for C3: with one item holding an embedded vote and a colliding
entry in the votes list, the list entry wins. -/
theorem mergedVotes_precedence_witness :
    ((∀ lv, mapVotes [collidingListVote] (getItemKey embeddedSampleItem) =
          some lv →
        mergedVotes (dedupeItems [embeddedSampleItem]) [collidingListVote]
          (getItemKey embeddedSampleItem) = some lv) ∧
      (mapVotes [collidingListVote] (getItemKey embeddedSampleItem) = none →
        mergedVotes (dedupeItems [embeddedSampleItem]) [collidingListVote]
          (getItemKey embeddedSampleItem) =
          some (embedVote embeddedSampleItem sampleEmbedded))) ∧
    mergedVotes (dedupeItems [embeddedSampleItem]) [collidingListVote]
      (getItemKey embeddedSampleItem) = some collidingListVote :=
  ⟨mergedVotes_precedence [embeddedSampleItem] [collidingListVote]
      embeddedSampleItem sampleEmbedded (by decide) (by decide),
    by decide⟩

/-- JavaScript truthiness of votes[key]?.vote_value: the chain is truthy only
when the record holds a vote whose vote_value is a non-empty string. -/
def truthyVoteValue (v : Option WeatherVoteVote) : Bool :=
  match v with
  | none => false
  | some vote =>
      match vote.vote_value with
      | none => false
      | some s => decide (s ≠ "")

/-- The view-state decision at the end of loadContext in VoteLanding.tsx:
allVoted is items.every over the merged map, summary requires a non-empty
item list, and otherwise the state resets to welcome only when
allowViewReset holds (else the previous state is kept). -/
def loadViewStateAfterContext (contextItems : List WeatherVoteItem)
    (merged : String → Option WeatherVoteVote) (allowViewReset : Bool)
    (prevState : ViewState) : ViewState :=
  let allVoted :=
    contextItems.all (fun item => truthyVoteValue (merged (getItemKey item)))
  if allVoted && decide (0 < contextItems.length) then ViewState.summary
  else if allowViewReset then ViewState.welcome
  else prevState

/-- An empty merged vote map used in the C7 counterexample. -/
def emptyMergedMap : String → Option WeatherVoteVote := fun _ => none

/-- A merged map binding the key of defaultItem to a vote whose vote_value is
the empty string, used in the C7 counterexample. -/
def emptyStringVoteMap : String → Option WeatherVoteVote :=
  fun k =>
    if k = getItemKey defaultItem then
      some { defaultVote with vote_value := some "" }
    else none

/-- Counterexample to C7 as stated: on an empty item list every item
vacuously has a merged vote with a non-null value, yet the view state becomes
welcome, not summary; likewise an item whose merged vote_value is the
non-null empty string lands on welcome. -/
theorem loadViewState_counterexample :
    loadViewStateAfterContext [] emptyMergedMap true ViewState.loading =
      ViewState.welcome ∧
    ([] : List WeatherVoteItem).all
      (fun item => truthyVoteValue (emptyMergedMap (getItemKey item))) = true ∧
    loadViewStateAfterContext [defaultItem] emptyStringVoteMap true
      ViewState.loading = ViewState.welcome ∧
    (emptyStringVoteMap (getItemKey defaultItem)).isSome = true ∧
    ((emptyStringVoteMap (getItemKey defaultItem)).bind
      (fun v => v.vote_value)) = some "" := by
  refine ⟨rfl, rfl, ?_, by decide, by decide⟩
  decide

/-- Claim C7 amended: when the item list is non-empty and every item's merged
vote carries a truthy (non-null, non-empty) vote value, the view state is set
directly to summary; otherwise, when view reset is allowed, it is set to
welcome. -/
theorem loadViewState_amended (contextItems : List WeatherVoteItem)
    (merged : String → Option WeatherVoteVote) (allowViewReset : Bool)
    (prevState : ViewState) :
    (contextItems ≠ [] →
      (∀ i ∈ contextItems, truthyVoteValue (merged (getItemKey i)) = true) →
      loadViewStateAfterContext contextItems merged allowViewReset prevState =
        ViewState.summary) ∧
    (((∃ i ∈ contextItems, truthyVoteValue (merged (getItemKey i)) = false) ∨
        contextItems = []) → allowViewReset = true →
      loadViewStateAfterContext contextItems merged allowViewReset prevState =
        ViewState.welcome) := by
  constructor
  · intro hne hall
    unfold loadViewStateAfterContext
    rw [if_pos]
    rw [Bool.and_eq_true]
    constructor
    · rw [List.all_eq_true]
      exact hall
    · rw [decide_eq_true_iff]
      exact List.length_pos.mpr hne
  · intro hfail hreset
    unfold loadViewStateAfterContext
    rw [if_neg, if_pos hreset]
    rw [Bool.and_eq_true]
    rintro ⟨hall, hlen⟩
    rcases hfail with ⟨i, hi, hfalse⟩ | hempty
    · have := List.all_eq_true.mp hall i hi
      rw [this] at hfalse
      exact Bool.true_eq_false.mp hfalse
    · rw [hempty] at hlen
      simp at hlen

/-- A merged map binding the key of defaultItem to a completed vote, used in
the C7 witness. -/
def completedVoteMap : String → Option WeatherVoteVote :=
  fun k =>
    if k = getItemKey defaultItem then
      some { defaultVote with vote_value := some "go" }
    else none

/-- Witness for C7's amended claim: one item with a completed vote lands on
summary directly. -/
theorem loadViewState_amended_witness :
    loadViewStateAfterContext [defaultItem] completedVoteMap true
      ViewState.loading = ViewState.summary :=
  (loadViewState_amended [defaultItem] completedVoteMap true
    ViewState.loading).1 (by decide) (by decide)

/-- Index-aware linear scan: Array.prototype.findIndex with the running
index threaded through. -/
def jsFindIndexAux {α : Type} (p : Nat → α → Bool) : Nat → List α → Option Nat
  | _, [] => none
  | i, x :: xs => if p i x then some i else jsFindIndexAux p (i + 1) xs

/-- JavaScript findIndex over a list, with the index visible to the
predicate; none models the -1 return. -/
def jsFindIndex {α : Type} (p : Nat → α → Bool) (l : List α) : Option Nat :=
  jsFindIndexAux p 0 l

/-- Starting the scan one position later shifts every produced index by one. -/
lemma jsFindIndexAux_shift {α : Type} (p : Nat → α → Bool) (l : List α)
    (i : Nat) :
    jsFindIndexAux p (i + 1) l =
      (jsFindIndexAux (fun n a => p (n + 1) a) i l).map (fun n => n + 1) := by
  induction l generalizing i with
  | nil => rfl
  | cons x xs ih =>
      rw [jsFindIndexAux, jsFindIndexAux]
      by_cases hp : p (i + 1) x
      · rw [if_pos hp, if_pos hp]
        rfl
      · rw [if_neg hp, if_neg hp]
        exact ih (i + 1)

/-- A successful findIndex returns an in-range index whose element satisfies
the predicate while all earlier indices fail it. -/
lemma jsFindIndex_some {α : Type} (p : Nat → α → Bool) (l : List α) (j : Nat)
    (h : jsFindIndex p l = some j) :
    ∃ hj : j < l.length, p j (l.get ⟨j, hj⟩) = true ∧
      ∀ k, ∀ hk : k < l.length, k < j → p k (l.get ⟨k, hk⟩) = false := by
  induction l generalizing p j with
  | nil => simp [jsFindIndex, jsFindIndexAux] at h
  | cons x xs ih =>
      rw [jsFindIndex, jsFindIndexAux] at h
      by_cases hp : p 0 x
      · rw [if_pos hp] at h
        obtain rfl : j = 0 := (Option.some_inj.mp h).symm
        refine ⟨Nat.succ_pos _, hp, ?_⟩
        intro k hk hkj
        exact absurd hkj (Nat.not_lt_zero k)
      · rw [if_neg hp, jsFindIndexAux_shift] at h
        obtain ⟨j₀, hj₀, rfl⟩ := Option.map_eq_some'.mp h
        obtain ⟨hlt, hsat, hpref⟩ := ih (fun n a => p (n + 1) a) j₀ hj₀
        refine ⟨Nat.succ_lt_succ hlt, hsat, ?_⟩
        intro k hk hkj
        cases k with
        | zero => simpa using hp
        | succ k₀ =>
            exact hpref k₀ (Nat.lt_of_succ_lt_succ hk)
              (Nat.lt_of_succ_lt_succ hkj)

/-- findIndex returns none exactly when no index satisfies the predicate. -/
lemma jsFindIndex_none {α : Type} (p : Nat → α → Bool) (l : List α) :
    jsFindIndex p l = none ↔
      ∀ k, ∀ hk : k < l.length, p k (l.get ⟨k, hk⟩) = false := by
  induction l generalizing p with
  | nil => simp [jsFindIndex, jsFindIndexAux]
  | cons x xs ih =>
      rw [jsFindIndex, jsFindIndexAux]
      by_cases hp : p 0 x
      · rw [if_pos hp]
        constructor
        · intro hcontra
          exact absurd hcontra (by simp)
        · intro hall
          have h0 : p 0 x = false := hall 0 (Nat.succ_pos _)
          rw [h0] at hp
          exact absurd hp (by simp)
      · rw [if_neg hp, jsFindIndexAux_shift, Option.map_eq_none']
        have ih2 := ih (fun n a => p (n + 1) a)
        rw [jsFindIndex] at ih2
        rw [ih2]
        constructor
        · intro hall k hk
          cases k with
          | zero => simpa using hp
          | succ k₀ => exact hall k₀ (Nat.lt_of_succ_lt_succ hk)
        · intro hall k hk
          exact hall (k + 1) (Nat.succ_lt_succ hk)

/-- Whether the record holds a completed vote at key k (the truthiness of
updatedVotes[itemKey]?.vote_value in submitVote). -/
def hasCompletedVote (votes : String → Option WeatherVoteVote) (k : String) :
    Bool :=
  truthyVoteValue (votes k)

/-- The post-submission step of submitVote in VoteLanding.tsx: findIndex over
the items for the first index strictly past currentJobIndex whose key lacks a
completed vote in the updated map; on a hit the state stays voting at that
index, otherwise it becomes summary. -/
def afterSubmitTransition (items : List WeatherVoteItem)
    (updatedVotes : String → Option WeatherVoteVote) (currentJobIndex : Nat) :
    ViewState × Nat :=
  match jsFindIndex
      (fun idx item =>
        decide (currentJobIndex < idx) &&
          ! hasCompletedVote updatedVotes (getItemKey item))
      items with
  | some j => (ViewState.voting, j)
  | none => (ViewState.summary, currentJobIndex)

/-- Claim C1: after a successful submission the controller scans strictly
after the just-voted index; a result of voting at j means j is the first
later index lacking a completed vote, and the state is summary exactly when
every strictly later item has a completed vote, regardless of earlier
items. -/
theorem afterSubmit_forward_scan (items : List WeatherVoteItem)
    (votes : String → Option WeatherVoteVote) (cur : Nat) :
    (∀ j, afterSubmitTransition items votes cur = (ViewState.voting, j) →
      cur < j ∧ ∃ hj : j < items.length,
        hasCompletedVote votes (getItemKey (items.get ⟨j, hj⟩)) = false ∧
        ∀ k, ∀ hk : k < items.length, cur < k → k < j →
          hasCompletedVote votes (getItemKey (items.get ⟨k, hk⟩)) = true) ∧
    (afterSubmitTransition items votes cur = (ViewState.summary, cur) ↔
      ∀ k, ∀ hk : k < items.length, cur < k →
        hasCompletedVote votes (getItemKey (items.get ⟨k, hk⟩)) = true) := by
  constructor
  · intro j hj
    unfold afterSubmitTransition at hj
    cases hfind : jsFindIndex
        (fun idx item =>
          decide (cur < idx) &&
            ! hasCompletedVote votes (getItemKey item)) items with
    | none => rw [hfind] at hj; exact absurd (Prod.mk.injEq _ _ _ _ ▸ hj) (by simp)
    | some j₀ =>
        rw [hfind] at hj
        obtain ⟨-, rfl⟩ := Prod.mk.injEq _ _ _ _ ▸ hj
        obtain ⟨hlt, hsat, hpref⟩ := jsFindIndex_some _ items j₀ hfind
        rw [Bool.and_eq_true, decide_eq_true_iff, Bool.not_eq_true'] at hsat
        refine ⟨hsat.1, hlt, hsat.2, ?_⟩
        intro k hk hcurk hkj
        have hp := hpref k hk hkj
        rw [Bool.and_eq_false_iff] at hp
        rcases hp with hdec | hvote
        · rw [decide_eq_false_iff_not] at hdec
          exact absurd hcurk hdec
        · simpa using hvote
  · unfold afterSubmitTransition
    cases hfind : jsFindIndex
        (fun idx item =>
          decide (cur < idx) &&
            ! hasCompletedVote votes (getItemKey item)) items with
    | none =>
        simp only [true_iff]
        intro k hk hcurk
        have hand := (jsFindIndex_none _ items).mp hfind k hk
        rw [Bool.and_eq_false_iff] at hand
        rcases hand with hdec | hvote
        · rw [decide_eq_false_iff_not] at hdec
          exact absurd hcurk hdec
        · simpa using hvote
    | some j₀ =>
        obtain ⟨hlt, hsat, -⟩ := jsFindIndex_some _ items j₀ hfind
        rw [Bool.and_eq_true, decide_eq_true_iff, Bool.not_eq_true'] at hsat
        constructor
        · intro hcontra
          simp at hcontra
        · intro hall
          exfalso
          have hcontra := hall j₀ hlt hsat.1
          rw [hsat.2] at hcontra
          exact absurd hcontra (by simp)

/-- A concrete three-item list for the C1 witness: items 0, 1, 2 with only
item 1 voted. -/
def scanItems : List WeatherVoteItem :=
  [defaultItem, { defaultItem with internal_job_id := 1 },
    { defaultItem with internal_job_id := 2 }]

/-- A vote map completing only the middle item of scanItems. -/
def scanVotes : String → Option WeatherVoteVote :=
  fun k =>
    if k = getItemKey { defaultItem with internal_job_id := 1 } then
      some { defaultVote with internal_job_id := 1, vote_value := some "go" }
    else none

/-- Witness for C1: after voting index 0 of scanItems, the controller skips
the voted item 1 and lands on item 2, staying in the voting state. -/
theorem afterSubmit_forward_scan_witness :
    afterSubmitTransition scanItems scanVotes 0 = (ViewState.voting, 2) ∧
    (∀ j, afterSubmitTransition scanItems scanVotes 0 = (ViewState.voting, j) →
      0 < j ∧ ∃ hj : j < scanItems.length,
        hasCompletedVote scanVotes (getItemKey (scanItems.get ⟨j, hj⟩)) = false ∧
        ∀ k, ∀ hk : k < scanItems.length, 0 < k → k < j →
          hasCompletedVote scanVotes (getItemKey (scanItems.get ⟨k, hk⟩)) = true) :=
  ⟨by decide, (afterSubmit_forward_scan scanItems scanVotes 0).1⟩


/-- One hourly forecast entry (type WeatherEntry in the campaign page). -/
structure WeatherEntry where
  time : String
  tempF : Rat
  feelsLikeF : Rat
  condition : String
  rainChance : Rat
  rainInches : Rat
  windSpeedMph : Rat
deriving DecidableEq, Repr

/-- The record computePeak returns. -/
structure PeakInfo where
  time : String
  rainChance : Rat
  rainInches : Rat
deriving DecidableEq, Repr

/-- The first reduce of computePeak: hourly.reduce keeping the running entry
unless a strictly larger rainInches value appears. -/
def peakInchesEntryOf (h : WeatherEntry) (t : List WeatherEntry) :
    WeatherEntry :=
  t.foldl (fun mx en => if en.rainInches > mx.rainInches then en else mx) h

/-- The fallback reduce of computePeak over rainChance. -/
def peakChanceEntryOf (h : WeatherEntry) (t : List WeatherEntry) :
    WeatherEntry :=
  t.foldl (fun mx en => if en.rainChance > mx.rainChance then en else mx) h

/-- The peakEntry binding of computePeak: the rainInches maximizer when its
rainInches value is positive (useInches), else the rainChance maximizer. -/
def peakEntryOf (h : WeatherEntry) (t : List WeatherEntry) : WeatherEntry :=
  if (peakInchesEntryOf h t).rainInches > 0 then peakInchesEntryOf h t
  else peakChanceEntryOf h t

/-- computePeak from the campaign voting page: null on an empty list, else
the time and rain fields of the selected peak entry. -/
def computePeak : List WeatherEntry → Option PeakInfo
  | [] => none
  | h :: t =>
      some { time := (peakEntryOf h t).time,
             rainChance := (peakEntryOf h t).rainChance,
             rainInches := (peakEntryOf h t).rainInches }

/-- The strict-improvement reduce selects the first occurrence of the
maximum: the result splits the list with strictly smaller values before it
and no larger value anywhere. -/
lemma foldl_keepMax_spec (f : WeatherEntry → Rat) (a : WeatherEntry)
    (l : List WeatherEntry) (r : WeatherEntry)
    (hr : l.foldl (fun mx en => if f en > f mx then en else mx) a = r) :
    ∃ l₁ l₂, a :: l = l₁ ++ r :: l₂ ∧ (∀ y ∈ l₁, f y < f r) ∧
      ∀ y ∈ a :: l, f y ≤ f r := by
  induction l generalizing a with
  | nil =>
      obtain rfl : a = r := hr
      exact ⟨[], [], rfl, by simp, by simp⟩
  | cons x xs ih =>
      rw [List.foldl_cons] at hr
      by_cases hfx : f x > f a
      · rw [if_pos hfx] at hr
        obtain ⟨l₁, l₂, hsplit, hpref, hbound⟩ := ih x hr
        have hxr : f x ≤ f r := hbound x (List.mem_cons_self _ _)
        refine ⟨a :: l₁, l₂, by rw [List.cons_append, hsplit], ?_, ?_⟩
        · intro y hy
          rcases List.mem_cons.mp hy with hya | hyl
          · subst hya; exact lt_of_lt_of_le hfx hxr
          · exact hpref y hyl
        · intro y hy
          rcases List.mem_cons.mp hy with hya | hyl
          · subst hya; exact le_of_lt (lt_of_lt_of_le hfx hxr)
          · exact hbound y hyl
      · rw [if_neg hfx] at hr
        have hxa : f x ≤ f a := le_of_not_lt hfx
        obtain ⟨l₁, l₂, hsplit, hpref, hbound⟩ := ih a hr
        have har : f a ≤ f r := hbound a (List.mem_cons_self _ _)
        cases l₁ with
        | nil =>
            rw [List.nil_append] at hsplit
            injection hsplit with h1 h2
            subst h1
            subst h2
            refine ⟨[], x :: xs, rfl, by simp, ?_⟩
            intro y hy
            rcases List.mem_cons.mp hy with hya | hyl
            · subst hya; exact le_refl _
            · rcases List.mem_cons.mp hyl with hyx | hyxs
              · subst hyx; exact hxa
              · exact hbound y (List.mem_cons_of_mem _ hyxs)
        | cons a0 m =>
            rw [List.cons_append] at hsplit
            injection hsplit with h1 h2
            subst h1
            have hamem : f a < f r := hpref a (List.mem_cons_self _ _)
            refine ⟨a :: x :: m, l₂, ?_, ?_, ?_⟩
            · rw [h2]; rfl
            · intro y hy
              rcases List.mem_cons.mp hy with hya | hyl
              · subst hya; exact hamem
              · rcases List.mem_cons.mp hyl with hyx | hym
                · subst hyx; exact lt_of_le_of_lt hxa hamem
                · exact hpref y (List.mem_cons_of_mem _ hym)
            · intro y hy
              rcases List.mem_cons.mp hy with hya | hyl
              · subst hya; exact har
              · rcases List.mem_cons.mp hyl with hyx | hym
                · subst hyx; exact le_trans hxa har
                · exact hbound y (List.mem_cons_of_mem _ hym)

/-- Claim C2: computePeak on a non-empty list returns the projection of one
entry e splitting the list; the first reduce computes the maximal rainInches
value; when that maximum is positive, e is the first entry attaining it, and
when that maximum is zero, e is the first entry attaining the maximal
rainChance; in both cases ties break to the first occurrence. -/
theorem computePeak_spec (h : WeatherEntry) (t : List WeatherEntry) :
    ∃ e l₁ l₂, h :: t = l₁ ++ e :: l₂ ∧
      computePeak (h :: t) =
        some { time := e.time, rainChance := e.rainChance,
               rainInches := e.rainInches } ∧
      (∀ y ∈ h :: t, y.rainInches ≤ (peakInchesEntryOf h t).rainInches) ∧
      (0 < (peakInchesEntryOf h t).rainInches →
        (∀ y ∈ l₁, y.rainInches < e.rainInches) ∧
        ∀ y ∈ h :: t, y.rainInches ≤ e.rainInches) ∧
      ((peakInchesEntryOf h t).rainInches = 0 →
        (∀ y ∈ l₁, y.rainChance < e.rainChance) ∧
        ∀ y ∈ h :: t, y.rainChance ≤ e.rainChance) := by
  obtain ⟨li₁, li₂, hisplit, hipref, hibound⟩ :=
    foldl_keepMax_spec (fun en => en.rainInches) h t (peakInchesEntryOf h t) rfl
  obtain ⟨lc₁, lc₂, hcsplit, hcpref, hcbound⟩ :=
    foldl_keepMax_spec (fun en => en.rainChance) h t (peakChanceEntryOf h t) rfl
  by_cases hpos : (peakInchesEntryOf h t).rainInches > 0
  · refine ⟨peakInchesEntryOf h t, li₁, li₂, hisplit, ?_, hibound, ?_, ?_⟩
    · rw [computePeak]
      unfold peakEntryOf
      rw [if_pos hpos]
    · intro _
      exact ⟨hipref, hibound⟩
    · intro hzero
      rw [hzero] at hpos
      exact absurd hpos (lt_irrefl 0)
  · refine ⟨peakChanceEntryOf h t, lc₁, lc₂, hcsplit, ?_, hibound, ?_, ?_⟩
    · rw [computePeak]
      unfold peakEntryOf
      rw [if_neg hpos]
    · intro hcontra
      exact absurd hcontra hpos
    · intro _
      exact ⟨hcpref, hcbound⟩

/-- A baseline hourly entry for witnesses. -/
def defaultEntry : WeatherEntry :=
  { time := "2026-01-07T06:00:00", tempF := 40, feelsLikeF := 40,
    condition := "Cloudy", rainChance := 0, rainInches := 0,
    windSpeedMph := 3 }

/-- Hourly entry with rain chance 10 (spec example, fallback path). -/
def entryChance10 : WeatherEntry := { defaultEntry with rainChance := 10 }

/-- Hourly entry with rain chance 40 at 7 AM (spec example). -/
def entryChance40 : WeatherEntry :=
  { defaultEntry with
    time := "2026-01-07T07:00:00"
    rainChance := 40 }

/-- Hourly entry with rain chance 25 at 8 AM (spec example). -/
def entryChance25 : WeatherEntry :=
  { defaultEntry with
    time := "2026-01-07T08:00:00"
    rainChance := 25 }

/-- Witness for C2: on the spec example (rain-inches all zero, rain-chance
10, 40, 25) computePeak returns the chance-40 entry, and the characterization
theorem instantiates on that list. -/
theorem computePeak_spec_witness :
    computePeak [entryChance10, entryChance40, entryChance25] =
      some { time := "2026-01-07T07:00:00", rainChance := 40,
             rainInches := 0 } ∧
    ∃ e l₁ l₂,
      ([entryChance10, entryChance40, entryChance25] : List WeatherEntry) =
        l₁ ++ e :: l₂ ∧
      computePeak [entryChance10, entryChance40, entryChance25] =
        some { time := e.time, rainChance := e.rainChance,
               rainInches := e.rainInches } ∧
      (∀ y ∈ ([entryChance10, entryChance40, entryChance25] :
          List WeatherEntry),
        y.rainInches ≤
          (peakInchesEntryOf entryChance10
            [entryChance40, entryChance25]).rainInches) ∧
      (0 < (peakInchesEntryOf entryChance10
          [entryChance40, entryChance25]).rainInches →
        (∀ y ∈ l₁, y.rainInches < e.rainInches) ∧
        ∀ y ∈ ([entryChance10, entryChance40, entryChance25] :
            List WeatherEntry),
          y.rainInches ≤ e.rainInches) ∧
      ((peakInchesEntryOf entryChance10
          [entryChance40, entryChance25]).rainInches = 0 →
        (∀ y ∈ l₁, y.rainChance < e.rainChance) ∧
        ∀ y ∈ ([entryChance10, entryChance40, entryChance25] :
            List WeatherEntry),
          y.rainChance ≤ e.rainChance) :=
  ⟨by decide, computePeak_spec entryChance10 [entryChance40, entryChance25]⟩


/-- The three vote values of the assignment flow. -/
inductive VoteChoice where
  | go
  | delay
  | hold
deriving DecidableEq, Repr

/-- An Assignment row as held by the campaign voting pages. -/
structure Assignment where
  assignmentId : String
  status : Option String
  vote : Option VoteChoice
  delay_minutes : Option Int
  comment : Option String
  voted_at : Option String
deriving DecidableEq, Repr

/-- JavaScript truthiness of a nullable number: null and 0 are falsy, every
other value (negative included) is truthy. -/
def truthyNumOpt : Option Int → Bool
  | none => false
  | some n => decide (n ≠ 0)

/-- canAdvance from the campaign voting pages: a current assignment exists,
a vote is chosen, and a delay vote additionally has truthy delay_minutes. -/
def canAdvance (current : Option Assignment) : Bool :=
  match current with
  | none => false
  | some a =>
      a.vote.isSome &&
        (decide (a.vote ≠ some VoteChoice.delay) || truthyNumOpt a.delay_minutes)

/-- Claim C5: the submission-readiness check is false for a delay vote whose
delay_minutes is missing or zero, and true for any present vote that is not
delay or that is delay with positive delay_minutes. -/
theorem canAdvance_spec (a : Assignment) :
    (a.vote = some VoteChoice.delay →
      (a.delay_minutes = none \/ a.delay_minutes = some 0) →
      canAdvance (some a) = false) /\
    (∀ v, a.vote = some v →
      (v ≠ VoteChoice.delay \/ ∃ m, a.delay_minutes = some m /\ 0 < m) →
      canAdvance (some a) = true) := by
  constructor
  · intro hdelay hdm
    simp only [canAdvance]
    rw [hdelay]
    rw [Bool.and_eq_false_iff]
    right
    rw [Bool.or_eq_false_iff]
    refine ⟨decide_eq_false (by simp), ?_⟩
    rcases hdm with hn | h0
    · rw [hn]; rfl
    · rw [h0]
      unfold truthyNumOpt
      simp
  · intro v hv hok
    simp only [canAdvance]
    rw [hv]
    rw [Bool.and_eq_true]
    refine ⟨rfl, ?_⟩
    rcases hok with hnd | ⟨m, hm, hmpos⟩
    · rw [Bool.or_eq_true]
      left
      rw [decide_eq_true_iff]
      intro hc
      exact hnd (Option.some_inj.mp hc)
    · rw [Bool.or_eq_true]
      right
      rw [hm]
      unfold truthyNumOpt
      rw [decide_eq_true_iff]
      exact Int.ne_of_gt hmpos

/-- A concrete delay assignment with zero delay minutes. -/
def zeroDelayAssignment : Assignment :=
  { assignmentId := "a1", status := some "pending",
    vote := some VoteChoice.delay, delay_minutes := some 0,
    comment := none, voted_at := none }

/-- Witness for C5: the zero-minutes delay assignment cannot advance. -/
theorem canAdvance_spec_witness :
    canAdvance (some zeroDelayAssignment) = false :=
  (canAdvance_spec zeroDelayAssignment).1 rfl (Or.inr rfl)


/-- The hourly weather payload cached per job id (WeatherResponse in the
campaign page; fields not read by the cache guards are elided to the hourly
list and daily extremes). -/
structure WeatherResponse where
  hourly : List WeatherEntry
  dailyHighTempF : Option Rat
  dailyLowTempF : Option Rat
deriving DecidableEq, Repr

/-- JavaScript truthiness of a nullable string: null and the empty string
are falsy. -/
def truthyStrOpt : Option String → Bool
  | none => false
  | some s => decide (s ≠ "")

/-- The fetch guard of toggleWeather in VoteLanding.tsx: return (no fetch)
when weatherData[key] is truthy or the key is in loadingWeather; the cache
value is none when never stored, some none when null was stored. -/
def shouldFetchToggleWeather
    (weatherData : String → Option (Option WeatherResponse))
    (loadingWeather : String → Bool) (k : String) : Bool :=
  !((match weatherData k with
     | some (some _) => true
     | _ => false) || loadingWeather k)

/-- The fetch guard of the weather effect in the campaign page: return when
weatherCache[cacheKey] is not undefined (null included), when a truthy error
is recorded, or when the in-flight ref is set. -/
def shouldFetchCampaignWeather
    (weatherCache : String → Option (Option WeatherResponse))
    (weatherErrors : String → Option String)
    (loadingRef : String → Bool) (k : String) : Bool :=
  match weatherCache k with
  | some _ => false
  | none =>
      if truthyStrOpt (weatherErrors k) then false
      else !(loadingRef k)

/-- A session cache holding an explicit null for every key, as after a
failed or not-found lookup. -/
def cachedNullWeather : String → Option (Option WeatherResponse) :=
  fun _ => some none

/-- Counterexample to C6 as stated: in the toggleWeather flow a job id whose
cached weather result is the null sentinel, with nothing in flight, still
triggers a fetch. -/
theorem weatherCache_counterexample :
    cachedNullWeather "7" = some none ∧
    (fun _ => false : String → Bool) "7" = false ∧
    shouldFetchToggleWeather cachedNullWeather (fun _ => false) "7" = true := by
  exact ⟨rfl, rfl, rfl⟩

/-- Claim C6 amended: in the campaign flow any cached result, the null
sentinel included, prevents a refetch, and a fetch fires only for a key that
is uncached, unerrored and not in flight; in the toggleWeather flow a cached
non-null result or an in-flight key prevents the fetch, but a cached null
does not: there a fetch fires exactly when the cache holds no truthy value
and the key is not in flight. -/
theorem weatherCache_amended
    (cache : String → Option (Option WeatherResponse))
    (errors : String → Option String) (loadingC : String → Bool)
    (wd : String → Option (Option WeatherResponse))
    (loadingT : String → Bool) (k : String) :
    (∀ v, cache k = some v →
      shouldFetchCampaignWeather cache errors loadingC k = false) ∧
    (shouldFetchCampaignWeather cache errors loadingC k = true →
      cache k = none ∧ truthyStrOpt (errors k) = false ∧ loadingC k = false) ∧
    (∀ w, wd k = some (some w) →
      shouldFetchToggleWeather wd loadingT k = false) ∧
    (loadingT k = true → shouldFetchToggleWeather wd loadingT k = false) ∧
    (shouldFetchToggleWeather wd loadingT k = true →
      (wd k = none ∨ wd k = some none) ∧ loadingT k = false) := by
  refine ⟨?_, ?_, ?_, ?_, ?_⟩
  · intro v hv
    unfold shouldFetchCampaignWeather
    rw [hv]
  · intro hfetch
    unfold shouldFetchCampaignWeather at hfetch
    cases hc : cache k with
    | some v => rw [hc] at hfetch; exact absurd hfetch (by simp)
    | none =>
        rw [hc] at hfetch
        by_cases herr : truthyStrOpt (errors k) = true
        · rw [if_pos herr] at hfetch
          exact absurd hfetch (by simp)
        · rw [Bool.not_eq_true] at herr
          rw [if_neg (by rw [herr]; exact Bool.false_ne_true)] at hfetch
          rw [Bool.not_eq_true'] at hfetch
          exact ⟨rfl, herr, hfetch⟩
  · intro w hw
    unfold shouldFetchToggleWeather
    rw [hw]
    simp
  · intro hl
    unfold shouldFetchToggleWeather
    rw [hl]
    simp
  · intro hfetch
    unfold shouldFetchToggleWeather at hfetch
    rw [Bool.not_eq_true', Bool.or_eq_false_iff] at hfetch
    obtain ⟨hcache, hload⟩ := hfetch
    refine ⟨?_, hload⟩
    cases hc : wd k with
    | none => exact Or.inl rfl
    | some v =>
        cases v with
        | none => exact Or.inr rfl
        | some w => rw [hc] at hcache; exact absurd hcache (by simp)

/-- Witness for C6's amended claim: a campaign cache holding null for the
key prevents the refetch. -/
theorem weatherCache_amended_witness :
    shouldFetchCampaignWeather cachedNullWeather (fun _ => none)
      (fun _ => false) "7" = false :=
  (weatherCache_amended cachedNullWeather (fun _ => none) (fun _ => false)
    cachedNullWeather (fun _ => false) "7").1 none rfl


/-- A row of the weather_vote_tokens table joined with its person, as read by
the resolve endpoint. Timestamps are modelled as Int epoch values. -/
structure TokenRecord where
  token_hash : String
  person_id : String
  campaign_id : String
  revoked_at : Option Int
  expires_at : Int
  display_name : Option String
  role : Option String
deriving DecidableEq, Repr

/-- The outcome of the resolve endpoint, tagged by the HTTP status family it
is sent with. -/
inductive ResolveResult where
  | badRequest (msg : String)
  | unauthorized (msg : String)
  | forbidden (msg : String)
  | ok (personId : String) (displayName : Option String) (role : Option String)
deriving DecidableEq, Repr

/-- The HTTP status code attached to each resolve outcome. -/
def resolveStatus : ResolveResult → Nat
  | ResolveResult.badRequest _ => 400
  | ResolveResult.unauthorized _ => 401
  | ResolveResult.forbidden _ => 403
  | ResolveResult.ok _ _ _ => 200

/-- The supabase query of the resolve endpoint: match on token_hash, require
revoked_at null, require expires_at strictly after now (the .gt filter). -/
def resolveTokenQuery (db : List TokenRecord) (hash : String) (now : Int) :
    Option TokenRecord :=
  db.find? (fun r =>
    decide (r.token_hash = hash) && decide (r.revoked_at = none) &&
      decide (now < r.expires_at))

/-- POST of api/vote/resolve/route.ts. The route trims both JSON fields
before use; campaignId and token here stand for those trimmed values. Reject
a missing field, look the hashed token up, answer 401 when no unexpired
unrevoked row matches, 403 when the row belongs to another campaign, else
return the person. -/
def resolvePOST (db : List TokenRecord) (hashFn : String → String)
    (campaignId token : String) (now : Int) : ResolveResult :=
  if campaignId = "" ∨ token = "" then
    ResolveResult.badRequest "campaignId and token are required."
  else
    match resolveTokenQuery db (hashFn token) now with
    | none => ResolveResult.unauthorized "Token is invalid or expired."
    | some r =>
        if r.campaign_id ≠ campaignId then
          ResolveResult.forbidden "Token does not match campaign."
        else ResolveResult.ok r.person_id r.display_name r.role

/-- Claim C8: when every row matching the token hash is expired the endpoint
answers 401 invalid-or-expired no matter what revoked_at holds, and a 403
batch-mismatch answer implies an unexpired, unrevoked matching row for a
different campaign was found. -/
theorem resolvePOST_expired_spec (db : List TokenRecord)
    (hashFn : String → String) (campaignId token : String) (now : Int)
    (hc : campaignId ≠ "") (ht : token ≠ "") :
    ((∀ r ∈ db, r.token_hash = hashFn token → r.expires_at ≤ now) →
      resolvePOST db hashFn campaignId token now =
        ResolveResult.unauthorized "Token is invalid or expired." ∧
      resolveStatus (resolvePOST db hashFn campaignId token now) = 401) ∧
    (∀ m, resolvePOST db hashFn campaignId token now =
        ResolveResult.forbidden m →
      ∃ r, r ∈ db ∧ r.token_hash = hashFn token ∧ r.revoked_at = none ∧
        now < r.expires_at ∧ r.campaign_id ≠ campaignId) := by
  constructor
  · intro hexp
    have hfind : resolveTokenQuery db (hashFn token) now = none := by
      unfold resolveTokenQuery
      rw [List.find?_eq_none]
      intro r hr
      rw [Bool.not_eq_true, Bool.and_eq_false_iff, Bool.and_eq_false_iff]
      by_cases hhash : r.token_hash = hashFn token
      · right
        rw [decide_eq_false_iff_not]
        exact not_lt_of_le (hexp r hr hhash)
      · left
        left
        rw [decide_eq_false_iff_not]
        exact hhash
    unfold resolvePOST
    rw [if_neg (by rintro (h1 | h2); exact hc h1; exact ht h2), hfind]
    exact ⟨rfl, rfl⟩
  · intro m hres
    unfold resolvePOST at hres
    rw [if_neg (by rintro (h1 | h2); exact hc h1; exact ht h2)] at hres
    cases hfind : resolveTokenQuery db (hashFn token) now with
    | none =>
        rw [hfind] at hres
        exact absurd hres (by simp)
    | some r =>
        rw [hfind] at hres
        have hmem : r ∈ db := List.mem_of_find?_eq_some hfind
        have hpred := List.find?_some hfind
        rw [Bool.and_eq_true, Bool.and_eq_true] at hpred
        obtain ⟨⟨hhash, hrev⟩, hexp⟩ := hpred
        rw [decide_eq_true_iff] at hhash hrev hexp
        by_cases hcmp : r.campaign_id ≠ campaignId
        · exact ⟨r, hmem, hhash, hrev, hexp, hcmp⟩
        · exfalso
          have : (match some r with
              | none =>
                  ResolveResult.unauthorized "Token is invalid or expired."
              | some r =>
                  if r.campaign_id ≠ campaignId then
                    ResolveResult.forbidden "Token does not match campaign."
                  else ResolveResult.ok r.person_id r.display_name r.role) =
              ResolveResult.ok r.person_id r.display_name r.role := by
            rw [show (match some r with
                | none =>
                    ResolveResult.unauthorized "Token is invalid or expired."
                | some r =>
                    if r.campaign_id ≠ campaignId then
                      ResolveResult.forbidden "Token does not match campaign."
                    else ResolveResult.ok r.person_id r.display_name r.role) =
                if r.campaign_id ≠ campaignId then
                  ResolveResult.forbidden "Token does not match campaign."
                else ResolveResult.ok r.person_id r.display_name r.role
              from rfl]
            rw [if_neg hcmp]
          rw [this] at hres
          exact absurd hres (by simp)

/-- A concrete token row that is both expired and revoked. -/
def expiredRevokedRecord : TokenRecord :=
  { token_hash := "hash-abc", person_id := "p1", campaign_id := "c1",
    revoked_at := some 3, expires_at := 5, display_name := some "Jane",
    role := some "estimator" }

/-- Witness for C8: against a store holding only an expired and revoked row
for the hash, resolution at a later time answers 401 invalid-or-expired. -/
theorem resolvePOST_expired_spec_witness :
    resolvePOST [expiredRevokedRecord] (fun s => "hash-" ++ s) "c1" "abc" 10 =
      ResolveResult.unauthorized "Token is invalid or expired." ∧
    resolveStatus
      (resolvePOST [expiredRevokedRecord] (fun s => "hash-" ++ s) "c1" "abc"
        10) = 401 :=
  (resolvePOST_expired_spec [expiredRevokedRecord] (fun s => "hash-" ++ s)
    "c1" "abc" 10 (by decide) (by decide)).1 (by decide)


/-- The canonical row returned by the assignment submit endpoints (select of
vote, delay_minutes, comment, status, voted_at). -/
structure UpdatedAssignmentRow where
  vote : Option VoteChoice
  delay_minutes : Option Int
  comment : Option String
  status : Option String
  voted_at : Option String
deriving DecidableEq, Repr

/-- The reconciliation step of submitAllVotes in the campaign page: each
field takes the backend value unless that value is null, in which case the
locally-held value (or null) is kept, via the nullish-coalescing chains. -/
def reconcileAssignment (assignment : Assignment)
    (updated : UpdatedAssignmentRow) : Assignment :=
  { assignment with
    vote :=
      match updated.vote with
      | some v => some v
      | none => assignment.vote
    delay_minutes :=
      match updated.delay_minutes with
      | some m => some m
      | none => assignment.delay_minutes
    comment :=
      match updated.comment with
      | some c => some c
      | none => assignment.comment
    status :=
      match updated.status with
      | some s => some s
      | none => assignment.status
    voted_at :=
      match updated.voted_at with
      | some t => some t
      | none => assignment.voted_at }

/-- The submit payload of VoteLanding.tsx. -/
structure SubmitPayload where
  token : String
  internalJobId : Int
  forecastDate : Option String
  lensId : Option String
  voteValue : String
  voteReason : Option String
deriving DecidableEq, Repr

/-- The local vote record submitVote in VoteLanding.tsx writes for the
submitted key after a successful response: every field comes from the
request payload fields, voted_at from the local clock; the response body is
not consulted. -/
def localVoteAfterSubmit (payload : SubmitPayload) (nowIso : String) :
    WeatherVoteVote :=
  { internal_job_id := payload.internalJobId,
    forecast_date := payload.forecastDate,
    lens_id := payload.lensId,
    vote_value := some payload.voteValue,
    vote_reason := payload.voteReason,
    voted_at := some nowIso }

/-- A local delay assignment holding 90 delay minutes. -/
def delayedAssignment : Assignment :=
  { assignmentId := "a1", status := some "pending",
    vote := some VoteChoice.delay, delay_minutes := some 90,
    comment := none, voted_at := none }

/-- The canonical backend row after a go vote: the stored delay_minutes is
null (the endpoint writes null for every non-delay vote). -/
def goBackendRow : UpdatedAssignmentRow :=
  { vote := some VoteChoice.go, delay_minutes := none, comment := none,
    status := some "voted", voted_at := some "2026-01-07T12:00:00Z" }

/-- Counterexample to C9 as stated: reconciling a local 90-minute delay
assignment with the backend row of a go vote keeps the local delay_minutes
90 although the canonical stored value is null, so the local state does not
equal the backend row and the backend value did not win the conflict. -/
theorem reconcile_counterexample :
    (reconcileAssignment delayedAssignment goBackendRow).delay_minutes =
      some 90 ∧
    goBackendRow.delay_minutes = none ∧
    (reconcileAssignment delayedAssignment goBackendRow).delay_minutes ≠
      goBackendRow.delay_minutes := by
  refine ⟨rfl, rfl, ?_⟩
  decide

/-- Claim C9 amended: after a successful submission the campaign flow takes
each backend field that is non-null, and keeps the locally-held field when
the backend field is null; the VoteLanding flow writes the submitted payload
itself (with a locally-generated voted_at) as the local vote state, without
consulting the backend response body. -/
theorem reconcile_amended (a : Assignment) (u : UpdatedAssignmentRow)
    (p : SubmitPayload) (nowIso : String) :
    (∀ v, u.vote = some v → (reconcileAssignment a u).vote = some v) ∧
    (u.vote = none → (reconcileAssignment a u).vote = a.vote) ∧
    (∀ m, u.delay_minutes = some m →
      (reconcileAssignment a u).delay_minutes = some m) ∧
    (u.delay_minutes = none →
      (reconcileAssignment a u).delay_minutes = a.delay_minutes) ∧
    (∀ c, u.comment = some c → (reconcileAssignment a u).comment = some c) ∧
    (u.comment = none → (reconcileAssignment a u).comment = a.comment) ∧
    (∀ s, u.status = some s → (reconcileAssignment a u).status = some s) ∧
    (u.status = none → (reconcileAssignment a u).status = a.status) ∧
    (∀ t, u.voted_at = some t → (reconcileAssignment a u).voted_at = some t) ∧
    (u.voted_at = none → (reconcileAssignment a u).voted_at = a.voted_at) ∧
    (localVoteAfterSubmit p nowIso).vote_value = some p.voteValue ∧
    (localVoteAfterSubmit p nowIso).vote_reason = p.voteReason ∧
    (localVoteAfterSubmit p nowIso).voted_at = some nowIso := by
  refine ⟨?_, ?_, ?_, ?_, ?_, ?_, ?_, ?_, ?_, ?_, rfl, rfl, rfl⟩
  · intro v hv; simp only [reconcileAssignment, hv]
  · intro hv; simp only [reconcileAssignment, hv]
  · intro m hm; simp only [reconcileAssignment, hm]
  · intro hm; simp only [reconcileAssignment, hm]
  · intro c hcm; simp only [reconcileAssignment, hcm]
  · intro hcm; simp only [reconcileAssignment, hcm]
  · intro s hs; simp only [reconcileAssignment, hs]
  · intro hs; simp only [reconcileAssignment, hs]
  · intro t htm; simp only [reconcileAssignment, htm]
  · intro htm; simp only [reconcileAssignment, htm]

/-- Witness for C9's amended claim: a non-null backend status wins over the
local pending status. -/
theorem reconcile_amended_witness :
    (reconcileAssignment delayedAssignment goBackendRow).status =
      some "voted" :=
  (reconcile_amended delayedAssignment goBackendRow
    { token := "t", internalJobId := 1, forecastDate := none, lensId := none,
      voteValue := "go", voteReason := none }
    "2026-01-07T12:00:00Z").2.2.2.2.2.2.1 "voted" rfl


/-- The JSON payload of the assignment submit endpoints. The route trims
assignmentId and comment before use; the fields here stand for those trimmed
values. The vote arrives as a raw string to model runtime values outside the
declared union. -/
structure AssignSubmitRequest where
  assignmentId : Option String
  vote : Option String
  delay_minutes : Option Int
  comment : Option String
deriving DecidableEq, Repr

/-- The outcome of the strict assignment submit endpoint: a 400 response or
the row written to weather_vote_assignments. -/
inductive AssignSubmitResult where
  | badRequest (msg : String)
  | updateRow (vote : String) (delay_minutes : Option Int)
      (comment : Option String) (status : String)
deriving DecidableEq, Repr

/-- payload.comment?.trim() || null on the trimmed comment: null stays null
and the empty string collapses to null. -/
def normalizeComment : Option String → Option String
  | none => none
  | some c => if c = "" then none else some c

/-- POST of the strict assignment submit endpoint (part_001): missing or
falsy assignmentId or vote gives 400, a vote outside go/delay/hold gives
400, delay_minutes on a non-delay vote gives 400; a delay vote is never
rejected for its delay_minutes, which instead normalizes to the value when
positive and to 60 otherwise (null, zero and negative alike). -/
def submitAssignmentStrict (p : AssignSubmitRequest) : AssignSubmitResult :=
  if truthyStrOpt p.assignmentId = false ∨ truthyStrOpt p.vote = false then
    AssignSubmitResult.badRequest "assignmentId and vote are required."
  else
    match p.vote with
    | none => AssignSubmitResult.badRequest "assignmentId and vote are required."
    | some v =>
        if ¬(v = "go" ∨ v = "delay" ∨ v = "hold") then
          AssignSubmitResult.badRequest "Invalid vote value."
        else if v ≠ "delay" ∧ p.delay_minutes ≠ none then
          AssignSubmitResult.badRequest
            "delay_minutes is only allowed for delay votes."
        else
          AssignSubmitResult.updateRow v
            (if v = "delay" then
              some (match p.delay_minutes with
                    | some m => if 0 < m then m else 60
                    | none => 60)
             else none)
            (normalizeComment p.comment) "voted"

/-- Claim C10: in the strict endpoint a delay vote with missing, zero or
negative delay_minutes is not rejected; the written row silently defaults
delay_minutes to 60 in those cases, while a positive delay_minutes persists
unchanged. -/
theorem submitAssignmentStrict_delay_default (p : AssignSubmitRequest)
    (hid : truthyStrOpt p.assignmentId = true) (hv : p.vote = some "delay") :
    (∀ m, p.delay_minutes = some m → 0 < m →
      submitAssignmentStrict p =
        AssignSubmitResult.updateRow "delay" (some m)
          (normalizeComment p.comment) "voted") ∧
    ((p.delay_minutes = none ∨ ∃ m, p.delay_minutes = some m ∧ m ≤ 0) →
      submitAssignmentStrict p =
        AssignSubmitResult.updateRow "delay" (some 60)
          (normalizeComment p.comment) "voted") := by
  have hguard : ¬(truthyStrOpt p.assignmentId = false ∨
      truthyStrOpt p.vote = false) := by
    rintro (h1 | h2)
    · rw [hid] at h1
      exact Bool.true_eq_false.mp h1
    · rw [hv] at h2
      exact absurd h2 (by decide)
  constructor
  · intro m hm hmpos
    unfold submitAssignmentStrict
    rw [if_neg hguard, hv]
    dsimp only
    rw [if_neg (by decide), if_neg (by simp), if_pos rfl, hm]
    dsimp only
    rw [if_pos hmpos]
  · intro hcase
    unfold submitAssignmentStrict
    rw [if_neg hguard, hv]
    dsimp only
    rw [if_neg (by decide), if_neg (by simp), if_pos rfl]
    rcases hcase with hnone | ⟨m, hm, hmle⟩
    · rw [hnone]
    · rw [hm]
      dsimp only
      rw [if_neg (not_lt_of_le hmle)]

/-- A concrete delay submission carrying zero delay minutes. -/
def zeroDelayRequest : AssignSubmitRequest :=
  { assignmentId := some "a1", vote := some "delay",
    delay_minutes := some 0, comment := none }

/-- Witness for C10: a zero-minute delay submission is accepted and the
written row holds 60 delay minutes. -/
theorem submitAssignmentStrict_delay_default_witness :
    submitAssignmentStrict zeroDelayRequest =
      AssignSubmitResult.updateRow "delay" (some 60)
        (normalizeComment zeroDelayRequest.comment) "voted" :=
  (submitAssignmentStrict_delay_default zeroDelayRequest (by decide)
    (by decide)).2 (Or.inr ⟨0, rfl, le_refl 0⟩)

end VoteSystem
